import Mathlib

/-!
# Verification of the Explosive Choices outcome-evaluation engine

Shallow embedding of `src/outcome_evaluation.py` (class `OutcomeAnalyzer`)
over the rationals. The Python engine computes, from a board size `N`, a
hazard (bomb) count `M`, a count of uncovered (revealed) spaces `K` and a
bet amount `b`:

* a success rate `100 * Π_{i=0}^{K-1} (N - M - i) / (N - i)` via
  `functools.reduce` over `range(K)`;
* a failure rate `100 - successRate`;
* a payout multiplier, by linear interpolation / extrapolation
  (`scipy.interpolate.interp1d(..., fill_value='extrapolate')`) over the
  per-hazard-count sample table, queried at the number of *covered* spaces
  `N - K`;
* an expected value `((sr/100) * (m - b) + (fr/100) * (-b)) / b`.

Python floats are idealised as `ℚ`; the specified properties are stated up
to floating-point tolerance, which the rational model realises exactly.
Python exceptions (`KeyError` on a missing table entry, `ZeroDivisionError`,
scipy's rejection of fewer than two sample points) are modelled with
`Except`.
-/

namespace ExplosiveChoices

/-- Mirrors Python `range(k)` for an `int` argument: the list
`[0, 1, ..., k-1]`, empty when `k ≤ 0`. -/
def pyRange (k : ℤ) : List ℤ :=
  (List.range k.toNat).map (fun (n : ℕ) => (n : ℤ))

/-- The raw probability computed by
`OutcomeAnalyzer.calculate_success_failure_rates`:
`reduce(lambda x, i: x * ((amount_of_squares - num_bombs - i) / (amount_of_squares - i)), range(uncovered_spaces), 1)`. -/
def success_rate_raw (amount_of_squares num_bombs uncovered_spaces : ℤ) : ℚ :=
  (pyRange uncovered_spaces).foldl
    (fun (x : ℚ) (i : ℤ) =>
      x * (((amount_of_squares : ℚ) - (num_bombs : ℚ) - (i : ℚ)) /
        ((amount_of_squares : ℚ) - (i : ℚ)))) 1

/-- The pair stored by `calculate_success_failure_rates` in the insights
dictionary: `Success Rate = success_rate * 100`,
`Failure Rate = 100 - Success Rate`. -/
def calculate_success_failure_rates (amount_of_squares num_bombs uncovered_spaces : ℤ) :
    ℚ × ℚ :=
  let s := success_rate_raw amount_of_squares num_bombs uncovered_spaces * 100
  (s, 100 - s)

/-- `True` exactly when the Python reduce in
`calculate_success_failure_rates` raises `ZeroDivisionError`: some factor
has denominator `amount_of_squares - i = 0` for `i` in
`range(uncovered_spaces)`. -/
def zero_division_in_rates (amount_of_squares uncovered_spaces : ℤ) : Bool :=
  (pyRange uncovered_spaces).any (fun i => amount_of_squares - i == 0)

/-- The straight line through sample points `p` and `p'`, evaluated at `q`. -/
def lineThrough (p p' : ℚ × ℚ) (q : ℚ) : ℚ :=
  p.2 + (p'.2 - p.2) / (p'.1 - p.1) * (q - p.1)

/-- Model of `scipy.interpolate.interp1d(x, y, fill_value='extrapolate')`
(default `kind='linear'`) applied to the sample sequence `pts` (pairs
`(x, y)`, already in the ascending-`x` order scipy establishes internally)
and evaluated at `q`: piecewise-linear interpolation between the bracketing
sample points, extended linearly along the nearest edge segment outside the
sampled range. Sequences of fewer than two points are rejected by scipy
before evaluation (handled by the caller below); here they map to `0`. -/
def interp1d : List (ℚ × ℚ) → ℚ → ℚ
  | [], _ => 0
  | [_], _ => 0
  | [p, p'], q => lineThrough p p' q
  | p :: p' :: r :: rest, q =>
    if q ≤ p'.1 then lineThrough p p' q else interp1d (p' :: r :: rest) q

/-- The decrypted sample table built by `load_sample_data_packet`: for each
number of bombs (the `A` column), the sample sequence of
(uncovered spaces `B`, multiplier `C`) pairs. `none` models the absence of
a key in the `data_packets` dictionary (Python `KeyError`). -/
def PayoutTable : Type := ℤ → Option (List (ℚ × ℚ))

/-- The exceptions the Python analysis can surface to its caller. -/
inductive AnalysisError : Type
  /-- `KeyError` from `data_packets[num_bombs]` in `load_sample_data_packet`. -/
  | missingSampleData : AnalysisError
  /-- scipy `ValueError`: `interp1d` requires at least two sample points. -/
  | insufficientSampleData : AnalysisError
  /-- Python `ZeroDivisionError` (in the success-rate reduce, or dividing by
  a zero `bet_amount` in `calculate_expected_value`). -/
  | zeroDivision : AnalysisError
deriving DecidableEq, Repr

/-- The input record of one analysis, mirroring the constructor arguments of
`OutcomeAnalyzer(num_bombs, uncovered_spaces, bet_amount, amount_of_squares)`. -/
structure Scenario : Type where
  boardSize : ℤ
  hazardCount : ℤ
  revealedCount : ℤ
  betAmount : ℚ
deriving DecidableEq, Repr

/-- The `insights` dictionary of a completed analysis. -/
structure Insights : Type where
  successRate : ℚ
  failureRate : ℚ
  multiplier : ℚ
  expectedValue : ℚ
deriving DecidableEq, Repr

/-- `OutcomeAnalyzer.predict_multiplier`, with the count of
`crp.read_encrypted` invocations threaded through: the method defines and
calls `load_sample_data_packet` locally on every invocation, so each call
performs exactly one decrypt-and-parse load (the load precedes the
dictionary lookup, so it happens even when the lookup then fails). -/
def predict_multiplier (table : PayoutTable) (num_bombs : ℤ) (covered_spaces : ℚ)
    (loads : ℕ) : ℕ × Except AnalysisError ℚ :=
  (loads + 1,
    match table num_bombs with
    | none => .error .missingSampleData
    | some pts =>
      if pts.length < 2 then .error .insufficientSampleData
      else .ok (interp1d pts covered_spaces))

/-- `OutcomeAnalyzer.calculate_expected_value`:
`((prob_of_winning * (multiplier - bet_amount)) + (prob_of_losing * -bet_amount)) / bet_amount`. -/
def calculate_expected_value (success_rate failure_rate multiplier bet_amount : ℚ) : ℚ :=
  ((success_rate / 100) * (multiplier - bet_amount) +
    (failure_rate / 100) * (-bet_amount)) / bet_amount

/-- One full `OutcomeAnalyzer.__init__` run, with the decrypt-load counter
threaded: compute success and failure rates, then predict the multiplier at
`covered_spaces = amount_of_squares - uncovered_spaces`, then compute the
expected value. The three steps run in this fixed order; an exception in an
earlier step prevents the later ones. -/
def analyzeCounted (table : PayoutTable) (s : Scenario) (loads : ℕ) :
    ℕ × Except AnalysisError Insights :=
  if zero_division_in_rates s.boardSize s.revealedCount then
    (loads, .error .zeroDivision)
  else
    let rates := calculate_success_failure_rates s.boardSize s.hazardCount s.revealedCount
    let covered_spaces : ℚ := ((s.boardSize - s.revealedCount : ℤ) : ℚ)
    match predict_multiplier table s.hazardCount covered_spaces loads with
    | (loads', .error e) => (loads', .error e)
    | (loads', .ok m) =>
      if s.betAmount = 0 then (loads', .error .zeroDivision)
      else
        (loads', .ok ⟨rates.1, rates.2, m,
          calculate_expected_value rates.1 rates.2 m s.betAmount⟩)

/-- The result surfaced to the caller of `OutcomeAnalyzer(...)`. -/
def analyze (table : PayoutTable) (s : Scenario) : Except AnalysisError Insights :=
  (analyzeCounted table s 0).2

/-- Run a sequence of analyses in one process, returning the total number of
`crp.read_encrypted` loads triggered. -/
def runAnalyses (table : PayoutTable) (ss : List Scenario) (loads : ℕ) : ℕ :=
  ss.foldl (fun acc s => (analyzeCounted table s acc).1) loads

/-- A concrete sample table used for witnesses and counterexamples: a single
entry, for a hazard count of 5, with three sample points ordered by
uncovered-spaces value. -/
def demoTable : PayoutTable :=
  fun m => if m = 5 then some [(1, 6/5), (5, 5/2), (10, 8)] else none

end ExplosiveChoices

namespace ExplosiveChoices

/-! ## General lemmas about the embedded engine -/

theorem success_fold_eq_prod (N M : ℤ) (l : List ℤ) (a : ℚ) :
    l.foldl (fun (x : ℚ) (i : ℤ) =>
        x * (((N : ℚ) - (M : ℚ) - (i : ℚ)) / ((N : ℚ) - (i : ℚ)))) a =
      a * (l.map (fun (i : ℤ) =>
        (((N : ℚ) - (M : ℚ) - (i : ℚ)) / ((N : ℚ) - (i : ℚ))))).prod := by
  induction l generalizing a with
  | nil => simp
  | cons i l ih => simp [ih, mul_assoc]

theorem prod_map_range_intCast (g : ℤ → ℚ) (n : ℕ) :
    (((List.range n).map (fun (m : ℕ) => (m : ℤ))).map g).prod =
      ∏ i ∈ Finset.range n, g (i : ℤ) := by
  induction n with
  | zero => simp
  | succ n ih =>
    rw [List.range_succ, List.map_append, List.map_append, List.prod_append,
      Finset.prod_range_succ, ih]
    simp

/-- The `reduce` in `calculate_success_failure_rates` is the closed-form
product of the hypergeometric factors. -/
theorem success_rate_raw_eq_prod (N M K : ℤ) :
    success_rate_raw N M K =
      ∏ i ∈ Finset.range K.toNat,
        (((N : ℚ) - (M : ℚ) - (i : ℚ)) / ((N : ℚ) - (i : ℚ))) := by
  have h2 := prod_map_range_intCast
    (fun (i : ℤ) => (((N : ℚ) - (M : ℚ) - (i : ℚ)) / ((N : ℚ) - (i : ℚ)))) K.toNat
  unfold success_rate_raw pyRange
  rw [success_fold_eq_prod, one_mul, h2]
  push_cast
  rfl

/-- Inversion principle for a successful analysis: how each field of the
returned insights record is computed. -/
theorem analyze_ok_fields (table : PayoutTable) (s : Scenario) (r : Insights)
    (h : analyze table s = .ok r) :
    ∃ pts, table s.hazardCount = some pts ∧ 2 ≤ pts.length ∧ s.betAmount ≠ 0 ∧
      zero_division_in_rates s.boardSize s.revealedCount = false ∧
      r.successRate = success_rate_raw s.boardSize s.hazardCount s.revealedCount * 100 ∧
      r.failureRate = 100 - r.successRate ∧
      r.multiplier = interp1d pts ((s.boardSize - s.revealedCount : ℤ) : ℚ) ∧
      r.expectedValue =
        calculate_expected_value r.successRate r.failureRate r.multiplier s.betAmount := by
  by_cases hz : zero_division_in_rates s.boardSize s.revealedCount
  · simp [analyze, analyzeCounted, hz] at h
  · cases htab : table s.hazardCount with
    | none => simp [analyze, analyzeCounted, predict_multiplier, hz, htab] at h
    | some pts =>
      by_cases hlen : pts.length < 2
      · simp [analyze, analyzeCounted, predict_multiplier, hz, htab, hlen] at h
      · by_cases hb : s.betAmount = 0
        · simp [analyze, analyzeCounted, predict_multiplier, hz, htab, hlen, hb] at h
        · simp [analyze, analyzeCounted, predict_multiplier, hz, htab, hlen, hb,
            calculate_success_failure_rates] at h
          refine ⟨pts, rfl, by omega, hb, by simpa using hz, ?_⟩
          cases h
          simp [calculate_success_failure_rates]

/-- Forward evaluation rule for a successful analysis. -/
theorem analyze_eval_ok (table : PayoutTable) (s : Scenario) (pts : List (ℚ × ℚ))
    (htab : table s.hazardCount = some pts)
    (hz : zero_division_in_rates s.boardSize s.revealedCount = false)
    (hlen : 2 ≤ pts.length) (hb : s.betAmount ≠ 0) (sr m : ℚ)
    (hsr : success_rate_raw s.boardSize s.hazardCount s.revealedCount = sr)
    (hm : interp1d pts ((s.boardSize - s.revealedCount : ℤ) : ℚ) = m) :
    analyze table s = .ok ⟨sr * 100, 100 - sr * 100, m,
      calculate_expected_value (sr * 100) (100 - sr * 100) m s.betAmount⟩ := by
  push_cast at hm
  simp [analyze, analyzeCounted, predict_multiplier, htab, hz, hb,
    calculate_success_failure_rates, hsr, hm, show ¬pts.length < 2 by omega]

/-! ## Concrete evaluations used by witnesses and counterexamples -/

theorem eval_pyRange20 : pyRange 20 =
    [0, 1, 2, 3, 4, 5, 6, 7, 8, 9, 10, 11, 12, 13, 14, 15, 16, 17, 18, 19] := by
  decide

theorem eval_success_raw_25_5_20 : success_rate_raw 25 5 20 = 1 / 53130 := by
  rw [success_rate_raw, eval_pyRange20]
  norm_num

theorem eval_pyRange21 : pyRange 21 =
    [0, 1, 2, 3, 4, 5, 6, 7, 8, 9, 10, 11, 12, 13, 14, 15, 16, 17, 18, 19, 20] := by
  decide

theorem eval_success_raw_25_5_21 : success_rate_raw 25 5 21 = 0 := by
  rw [success_rate_raw, eval_pyRange21]
  norm_num

theorem eval_interp_demo_4 : interp1d [(1, 6/5), (5, 5/2), (10, 8)] 4 = 87 / 40 := by
  rw [interp1d, if_pos (by norm_num)]
  rw [lineThrough]
  norm_num

theorem eval_interp_demo_5 : interp1d [(1, 6/5), (5, 5/2), (10, 8)] 5 = 5 / 2 := by
  rw [interp1d, if_pos (by norm_num)]
  rw [lineThrough]
  norm_num

theorem eval_interp_demo_20 : interp1d [(1, 6/5), (5, 5/2), (10, 8)] 20 = 19 := by
  rw [interp1d, if_neg (by norm_num)]
  rw [interp1d, lineThrough]
  norm_num

theorem demo_analyze_25_5_20_1 : analyze demoTable ⟨25, 5, 20, 1⟩ =
    .ok ⟨10/5313, 531290/5313, 5/2, -21251/21252⟩ := by
  have h := analyze_eval_ok demoTable ⟨25, 5, 20, 1⟩ [(1, 6/5), (5, 5/2), (10, 8)]
    (by norm_num [demoTable]) (by decide) (by norm_num) (by norm_num)
    (1/53130) (5/2) eval_success_raw_25_5_20 (by norm_num [eval_interp_demo_5])
  rw [h]
  norm_num [calculate_expected_value]

/-! ## Claim C1 -/

/-- **C1.** For every scenario with `0 ≤ M < N` and `0 ≤ K ≤ N - M` whose
analysis completes, the computed success rate equals `100` times the product
over `i < K` of `(N - M - i) / (N - i)`, and the failure rate equals
`100 - successRate` (for `K = 0` the empty product gives rates `100`/`0`). -/
theorem C1_success_failure_rate_formula (table : PayoutTable) (s : Scenario) (r : Insights)
    (hM0 : 0 ≤ s.hazardCount) (hMN : s.hazardCount < s.boardSize)
    (hK0 : 0 ≤ s.revealedCount) (hKNM : s.revealedCount ≤ s.boardSize - s.hazardCount)
    (h : analyze table s = .ok r) :
    r.successRate = 100 * ∏ i ∈ Finset.range s.revealedCount.toNat,
        (((s.boardSize : ℚ) - (s.hazardCount : ℚ) - (i : ℚ)) /
          ((s.boardSize : ℚ) - (i : ℚ))) ∧
      r.failureRate = 100 - r.successRate := by
  obtain ⟨pts, -, -, -, -, hsr, hfr, -, -⟩ := analyze_ok_fields table s r h
  refine ⟨?_, hfr⟩
  rw [hsr, success_rate_raw_eq_prod, mul_comm]

theorem C1_success_failure_rate_formula_witness :
    (0 ≤ (5 : ℤ) ∧ (5 : ℤ) < 25 ∧ 0 ≤ (20 : ℤ) ∧ (20 : ℤ) ≤ 25 - 5 ∧
      analyze demoTable ⟨25, 5, 20, 1⟩ =
        .ok ⟨10/5313, 531290/5313, 5/2, -21251/21252⟩) ∧
      ((10 : ℚ)/5313 = 100 * ∏ i ∈ Finset.range 20,
          ((25 - 5 - (i : ℚ)) / (25 - (i : ℚ))) ∧
        (531290 : ℚ)/5313 = 100 - (10 : ℚ)/5313) := by
  refine ⟨⟨by norm_num, by norm_num, by norm_num, by norm_num,
    demo_analyze_25_5_20_1⟩, ?_⟩
  have h := C1_success_failure_rate_formula demoTable ⟨25, 5, 20, 1⟩
    ⟨10/5313, 531290/5313, 5/2, -21251/21252⟩
    (by norm_num) (by norm_num) (by norm_num) (by norm_num) demo_analyze_25_5_20_1
  simpa using h

end ExplosiveChoices
namespace ExplosiveChoices

theorem getD_fst_strictMono (pts : List (ℚ × ℚ))
    (hs : (pts.map Prod.fst).Chain' (· < ·)) (i j : ℕ) (hij : i < j) (hj : j < pts.length) :
    (pts.getD i ((0 : ℚ), (0 : ℚ))).1 < (pts.getD j ((0 : ℚ), (0 : ℚ))).1 := by
  have hi : i < pts.length := lt_trans hij hj
  have hp := List.chain'_iff_pairwise.1 hs
  have h := List.pairwise_iff_get.1 hp ⟨i, by simpa using hi⟩ ⟨j, by simpa using hj⟩ hij
  simpa [List.getD_eq_getElem, List.getElem_map, hi, hj] using h

theorem lineThrough_left (p p' : ℚ × ℚ) : lineThrough p p' p.1 = p.2 := by
  simp [lineThrough]

theorem lineThrough_right (p p' : ℚ × ℚ) (hne : p.1 ≠ p'.1) :
    lineThrough p p' p'.1 = p'.2 := by
  rw [lineThrough, div_mul_cancel₀]
  · ring
  · exact sub_ne_zero.mpr (fun hc => hne hc.symm)

theorem interp1d_bracket (j : ℕ) : ∀ (pts : List (ℚ × ℚ)),
    (pts.map Prod.fst).Chain' (· < ·) → ∀ (q : ℚ), j + 1 < pts.length →
    (pts.getD j ((0 : ℚ), (0 : ℚ))).1 ≤ q → q ≤ (pts.getD (j + 1) ((0 : ℚ), (0 : ℚ))).1 →
    interp1d pts q =
      lineThrough (pts.getD j ((0 : ℚ), (0 : ℚ))) (pts.getD (j + 1) ((0 : ℚ), (0 : ℚ))) q := by
  induction j with
  | zero =>
    rintro (_ | ⟨p, _ | ⟨p', rest⟩⟩) hs q hlen h0 h1
    · simp at hlen
    · simp at hlen
    · simp only [List.getD_cons_succ, List.getD_cons_zero] at h0 h1 ⊢
      cases rest with
      | nil => rw [interp1d]
      | cons r rest' => rw [interp1d, if_pos h1]
  | succ k ih =>
    rintro (_ | ⟨p, _ | ⟨p', rest⟩⟩) hs q hlen hle hge
    · simp at hlen
    · simp at hlen
    · have hlen' : k + 1 < (p' :: rest).length := by
        simpa using Nat.lt_of_succ_lt_succ hlen
      have hs' : ((p' :: rest).map Prod.fst).Chain' (· < ·) := hs.tail
      simp only [List.getD_cons_succ] at hle hge ⊢
      cases rest with
      | nil => simp at hlen'
      | cons r rest' =>
        by_cases hq : q ≤ p'.1
        · -- the query sits at the shared endpoint p'.1; k is forced to be 0
          have hk : k = 0 := by
            by_contra hk
            have hpos : 0 < k := Nat.pos_of_ne_zero hk
            have := getD_fst_strictMono (p' :: r :: rest') hs' 0 k hpos
              (Nat.lt_of_succ_lt hlen')
            simp only [List.getD_cons_zero] at this
            exact absurd (lt_of_lt_of_le this hle) (not_lt.mpr hq)
          subst hk
          simp only [List.getD_cons_zero, List.getD_cons_succ] at hle hge ⊢
          have hq' : q = p'.1 := le_antisymm hq hle
          have hpp' : p.1 < p'.1 := (List.chain'_cons.1 hs).1
          rw [interp1d, if_pos hq, hq']
          rw [lineThrough_right p p' (ne_of_lt hpp'), lineThrough_left]
        · rw [interp1d, if_neg hq]
          exact ih (p' :: r :: rest') hs' q hlen' hle hge

theorem interp1d_last (pts : List (ℚ × ℚ)) :
    (pts.map Prod.fst).Chain' (· < ·) → ∀ q : ℚ, 2 ≤ pts.length →
    (pts.getD (pts.length - 1) ((0 : ℚ), (0 : ℚ))).1 ≤ q →
    interp1d pts q =
      lineThrough (pts.getD (pts.length - 2) ((0 : ℚ), (0 : ℚ)))
        (pts.getD (pts.length - 1) ((0 : ℚ), (0 : ℚ))) q := by
  induction pts with
  | nil => intro _ q h2 _; simp at h2
  | cons p tail ih =>
    rcases tail with _ | ⟨p', tail'⟩
    · intro _ q h2 _; simp at h2
    · rcases tail' with _ | ⟨r, rest⟩
      · intro _ q _ _
        rw [interp1d]
        rfl
      · intro hs q _ hq
        have hs' : ((p' :: r :: rest).map Prod.fst).Chain' (· < ·) := hs.tail
        have e2 : (p :: p' :: r :: rest).length - 1 = rest.length + 1 + 1 := by
          simp
        rw [e2] at hq ⊢
        simp only [List.getD_cons_succ] at hq ⊢
        have hq' : ¬ q ≤ p'.1 := by
          have hmono := getD_fst_strictMono (p' :: r :: rest) hs' 0 (rest.length + 1)
            (by omega) (by simp)
          simp only [List.getD_cons_zero] at hmono
          exact not_le.mpr (lt_of_lt_of_le hmono hq)
        have e1 : (p :: p' :: r :: rest).length - 2 = rest.length + 1 := by
          simp
        rw [e1]
        simp only [List.getD_cons_succ]
        rw [interp1d, if_neg hq']
        have h := ih hs' q (by simp) (by
          simpa [show (p' :: r :: rest).length - 1 = rest.length + 1 from by simp]
            using hq)
        simpa [show (p' :: r :: rest).length - 2 = rest.length from by simp,
          show (p' :: r :: rest).length - 1 = rest.length + 1 from by simp] using h

end ExplosiveChoices
namespace ExplosiveChoices

theorem interp1d_below (pts : List (ℚ × ℚ)) (q : ℚ)
    (hs : (pts.map Prod.fst).Chain' (· < ·)) (h2 : 2 ≤ pts.length)
    (hq : q < (pts.getD 0 ((0 : ℚ), (0 : ℚ))).1) :
    interp1d pts q =
      lineThrough (pts.getD 0 ((0 : ℚ), (0 : ℚ))) (pts.getD 1 ((0 : ℚ), (0 : ℚ))) q := by
  rcases pts with _ | ⟨p, _ | ⟨p', rest⟩⟩
  · simp at h2
  · simp at h2
  · have hpp' : p.1 < p'.1 := (List.chain'_cons.1 hs).1
    simp only [List.getD_cons_zero, List.getD_cons_succ] at hq ⊢
    cases rest with
    | nil => rw [interp1d]
    | cons r rest' => rw [interp1d, if_pos (le_of_lt (lt_trans hq hpp'))]

theorem interp1d_sample (pts : List (ℚ × ℚ)) (j : ℕ)
    (hs : (pts.map Prod.fst).Chain' (· < ·)) (h2 : 2 ≤ pts.length)
    (hj : j < pts.length) :
    interp1d pts ((pts.getD j ((0 : ℚ), (0 : ℚ))).1) = (pts.getD j ((0 : ℚ), (0 : ℚ))).2 := by
  rcases Nat.lt_or_ge (j + 1) pts.length with hlt | hge
  · have h := interp1d_bracket j pts hs ((pts.getD j ((0 : ℚ), (0 : ℚ))).1) hlt
      (le_refl _) (le_of_lt (getD_fst_strictMono pts hs j (j + 1) (by omega) hlt))
    rw [h, lineThrough_left]
  · have hj' : j = pts.length - 1 := by omega
    have hne : (pts.getD (pts.length - 2) ((0 : ℚ), (0 : ℚ))).1 ≠
        (pts.getD (pts.length - 1) ((0 : ℚ), (0 : ℚ))).1 :=
      ne_of_lt (getD_fst_strictMono pts hs (pts.length - 2) (pts.length - 1)
        (by omega) (by omega))
    rw [hj']
    rw [interp1d_last pts hs ((pts.getD (pts.length - 1) ((0 : ℚ), (0 : ℚ))).1) h2 (le_refl _)]
    exact lineThrough_right _ _ hne

/-! ## Claim C3 -/

/-- **C3.** For every strictly `x`-ordered sample sequence with at least two
points, the predicted multiplier is the piecewise-linear interpolant: between
two adjacent sample `x`-values it lies on the straight line connecting those
two sample points, and outside the sampled range it is extended linearly
along the nearest edge segment (not clamped and not an error). -/
theorem C3_piecewise_linear_interpolation_extrapolation (pts : List (ℚ × ℚ)) (q : ℚ)
    (hs : (pts.map Prod.fst).Chain' (· < ·)) (h2 : 2 ≤ pts.length) :
    (∀ j : ℕ, j + 1 < pts.length →
        (pts.getD j ((0 : ℚ), (0 : ℚ))).1 ≤ q → q ≤ (pts.getD (j + 1) ((0 : ℚ), (0 : ℚ))).1 →
        interp1d pts q =
          lineThrough (pts.getD j ((0 : ℚ), (0 : ℚ))) (pts.getD (j + 1) ((0 : ℚ), (0 : ℚ))) q) ∧
      (q < (pts.getD 0 ((0 : ℚ), (0 : ℚ))).1 →
        interp1d pts q =
          lineThrough (pts.getD 0 ((0 : ℚ), (0 : ℚ))) (pts.getD 1 ((0 : ℚ), (0 : ℚ))) q) ∧
      ((pts.getD (pts.length - 1) ((0 : ℚ), (0 : ℚ))).1 < q →
        interp1d pts q =
          lineThrough (pts.getD (pts.length - 2) ((0 : ℚ), (0 : ℚ)))
            (pts.getD (pts.length - 1) ((0 : ℚ), (0 : ℚ))) q) := by
  refine ⟨fun j hlen hle hge => interp1d_bracket j pts hs q hlen hle hge,
    fun hq => interp1d_below pts q hs h2 hq,
    fun hq => interp1d_last pts hs q h2 (le_of_lt hq)⟩

theorem C3_piecewise_linear_interpolation_extrapolation_witness :
    ((([(1, 6/5), (5, 5/2), (10, 8)] : List (ℚ × ℚ)).map Prod.fst).Chain' (· < ·) ∧
      2 ≤ ([(1, 6/5), (5, 5/2), (10, 8)] : List (ℚ × ℚ)).length) ∧
      interp1d [(1, 6/5), (5, 5/2), (10, 8)] 3 = lineThrough (1, 6/5) (5, 5/2) 3 ∧
      interp1d [(1, 6/5), (5, 5/2), (10, 8)] 0 = lineThrough (1, 6/5) (5, 5/2) 0 ∧
      interp1d [(1, 6/5), (5, 5/2), (10, 8)] 20 = lineThrough (5, 5/2) (10, 8) 20 := by
  have hs : (([(1, 6/5), (5, 5/2), (10, 8)] : List (ℚ × ℚ)).map Prod.fst).Chain' (· < ·) := by
    simp [List.chain'_cons]
    norm_num
  refine ⟨⟨hs, by norm_num⟩, ?_, ?_, ?_⟩
  · have h := (C3_piecewise_linear_interpolation_extrapolation
      [(1, 6/5), (5, 5/2), (10, 8)] 3 hs (by norm_num)).1 0 (by norm_num)
      (by norm_num) (by norm_num)
    simpa using h
  · have h := (C3_piecewise_linear_interpolation_extrapolation
      [(1, 6/5), (5, 5/2), (10, 8)] 0 hs (by norm_num)).2.1 (by norm_num)
    simpa using h
  · have h := (C3_piecewise_linear_interpolation_extrapolation
      [(1, 6/5), (5, 5/2), (10, 8)] 20 hs (by norm_num)).2.2 (by norm_num)
    simpa using h

/-! ## Claim C7 -/

/-- **C7.** For every hazard count whose table entry is a strictly
`x`-ordered sample sequence with at least two points, querying the
multiplier predictor exactly at a stored sample's `x` returns that sample's
multiplier: the interpolation is idempotent on the sample points. -/
theorem C7_interpolation_idempotent_on_samples (table : PayoutTable) (num_bombs : ℤ)
    (pts : List (ℚ × ℚ)) (j : ℕ) (loads : ℕ)
    (htab : table num_bombs = some pts)
    (hs : (pts.map Prod.fst).Chain' (· < ·)) (h2 : 2 ≤ pts.length)
    (hj : j < pts.length) :
    (predict_multiplier table num_bombs ((pts.getD j ((0 : ℚ), (0 : ℚ))).1) loads).2 =
      .ok ((pts.getD j ((0 : ℚ), (0 : ℚ))).2) := by
  have hi := interp1d_sample pts j hs h2 hj
  simp only [predict_multiplier, htab]
  rw [if_neg (show ¬pts.length < 2 by omega), hi]

theorem C7_interpolation_idempotent_on_samples_witness :
    (demoTable 5 = some [(1, 6/5), (5, 5/2), (10, 8)] ∧
      (([(1, 6/5), (5, 5/2), (10, 8)] : List (ℚ × ℚ)).map Prod.fst).Chain' (· < ·) ∧
      2 ≤ ([(1, 6/5), (5, 5/2), (10, 8)] : List (ℚ × ℚ)).length ∧
      1 < ([(1, 6/5), (5, 5/2), (10, 8)] : List (ℚ × ℚ)).length) ∧
      (predict_multiplier demoTable 5 5 0).2 = .ok (5/2) := by
  have hs : (([(1, 6/5), (5, 5/2), (10, 8)] : List (ℚ × ℚ)).map Prod.fst).Chain' (· < ·) := by
    simp [List.chain'_cons]
    norm_num
  refine ⟨⟨by norm_num [demoTable], hs, by norm_num, by norm_num⟩, ?_⟩
  have h := C7_interpolation_idempotent_on_samples demoTable 5
    [(1, 6/5), (5, 5/2), (10, 8)] 1 0 (by norm_num [demoTable]) hs
    (by norm_num) (by norm_num)
  simpa using h

end ExplosiveChoices
namespace ExplosiveChoices

/-! ## Claim C2 -/

/-- **C2 counterexample.** The claim requires the scenario
`boardSize = 25`, `hazardCount = 5`, `revealedCount = 21` (which violates
`revealedCount ≤ boardSize - hazardCount`) to be rejected before any
calculation and never produce a computed result; the code performs no
validation and returns a fully computed insights record. -/
theorem C2_counterexample_invalid_scenario_computes :
    analyze demoTable ⟨25, 5, 21, 1⟩ = .ok ⟨0, 100, 87/40, -1⟩ := by
  have h := analyze_eval_ok demoTable ⟨25, 5, 21, 1⟩ [(1, 6/5), (5, 5/2), (10, 8)]
    (by norm_num [demoTable]) (by decide) (by norm_num) (by norm_num)
    0 (87/40) eval_success_raw_25_5_21 (by norm_num [eval_interp_demo_4])
  rw [h]
  norm_num [calculate_expected_value]

/-- **C2 (amended).** The code performs no input validation and has no
`InvalidScenario` error: the out-of-range scenario `boardSize = 25`,
`hazardCount = 5`, `revealedCount = 21` proceeds through all three
calculation steps and, for every nonzero bet amount, returns a computed
result with `successRate = 0`, `failureRate = 100`, an interpolated
multiplier, and `expectedValue = -1`. -/
theorem C2_no_validation_invalid_scenario_returns_result (b : ℚ) (hb : b ≠ 0) :
    analyze demoTable ⟨25, 5, 21, b⟩ = .ok ⟨0, 100, 87/40, -1⟩ := by
  have h := analyze_eval_ok demoTable ⟨25, 5, 21, b⟩ [(1, 6/5), (5, 5/2), (10, 8)]
    (by norm_num [demoTable]) (show zero_division_in_rates 25 21 = false by decide)
    (by norm_num) hb
    0 (87/40) eval_success_raw_25_5_21 (by norm_num [eval_interp_demo_4])
  rw [h]
  have hev : calculate_expected_value (0 * 100) (100 - 0 * 100) (87/40) b = -1 := by
    rw [calculate_expected_value]
    field_simp
  rw [hev]
  norm_num

theorem C2_no_validation_invalid_scenario_returns_result_witness :
    (2 : ℚ) ≠ 0 ∧ analyze demoTable ⟨25, 5, 21, 2⟩ = .ok ⟨0, 100, 87/40, -1⟩ :=
  ⟨by norm_num, C2_no_validation_invalid_scenario_returns_result 2 (by norm_num)⟩

/-! ## Claim C4 -/

/-- **C4.** For every scenario whose analysis completes (which requires a
nonzero bet amount), the computed expected value equals
`((successRate/100) * (multiplier - betAmount) + (failureRate/100) * (-betAmount)) / betAmount`,
a return expressed as a fraction of the bet. -/
theorem C4_expected_value_formula (table : PayoutTable) (s : Scenario) (r : Insights)
    (h : analyze table s = .ok r) :
    s.betAmount ≠ 0 ∧
      r.expectedValue = ((r.successRate / 100) * (r.multiplier - s.betAmount) +
        (r.failureRate / 100) * (-s.betAmount)) / s.betAmount := by
  obtain ⟨pts, -, -, hb, -, -, -, -, hev⟩ := analyze_ok_fields table s r h
  exact ⟨hb, by rw [hev, calculate_expected_value]⟩

theorem C4_expected_value_formula_witness :
    analyze demoTable ⟨25, 5, 20, 1⟩ =
        .ok ⟨10/5313, 531290/5313, 5/2, -21251/21252⟩ ∧
      ((1 : ℚ) ≠ 0 ∧
        (-21251/21252 : ℚ) = (((10/5313 : ℚ) / 100) * ((5/2 : ℚ) - 1) +
          ((531290/5313 : ℚ) / 100) * (-1)) / 1) := by
  refine ⟨demo_analyze_25_5_20_1, ?_⟩
  have h := C4_expected_value_formula demoTable ⟨25, 5, 20, 1⟩
    ⟨10/5313, 531290/5313, 5/2, -21251/21252⟩ demo_analyze_25_5_20_1
  simpa using h

/-! ## Claim C6 -/

/-- **C6.** For every scenario whose analysis completes, the success rate
and failure rate fields of the result sum to exactly `100`. -/
theorem C6_rates_sum_to_100 (table : PayoutTable) (s : Scenario) (r : Insights)
    (h : analyze table s = .ok r) :
    r.successRate + r.failureRate = 100 := by
  obtain ⟨pts, -, -, -, -, -, hfr, -, -⟩ := analyze_ok_fields table s r h
  rw [hfr]
  ring

theorem C6_rates_sum_to_100_witness :
    analyze demoTable ⟨25, 5, 20, 1⟩ =
        .ok ⟨10/5313, 531290/5313, 5/2, -21251/21252⟩ ∧
      (10/5313 : ℚ) + (531290/5313 : ℚ) = 100 := by
  refine ⟨demo_analyze_25_5_20_1, ?_⟩
  have h := C6_rates_sum_to_100 demoTable ⟨25, 5, 20, 1⟩
    ⟨10/5313, 531290/5313, 5/2, -21251/21252⟩ demo_analyze_25_5_20_1
  simpa using h

end ExplosiveChoices
namespace ExplosiveChoices

theorem demo_analyze_25_5_20_2 : analyze demoTable ⟨25, 5, 20, 2⟩ =
    .ok ⟨10/5313, 531290/5313, 5/2, -42503/42504⟩ := by
  have h := analyze_eval_ok demoTable ⟨25, 5, 20, 2⟩ [(1, 6/5), (5, 5/2), (10, 8)]
    (by norm_num [demoTable]) (by decide) (by norm_num) (by norm_num)
    (1/53130) (5/2) eval_success_raw_25_5_20 (by norm_num [eval_interp_demo_5])
  rw [h]
  norm_num [calculate_expected_value]

/-! ## Claim C5 -/

/-- **C5.** For every hazard count with no entry in the payout table, the
analysis surfaces the missing-data error (the `KeyError` from
`data_packets[num_bombs]`) to the caller and never returns a result with a
silently defaulted multiplier. -/
theorem C5_missing_sample_data_is_error (table : PayoutTable) (s : Scenario)
    (hmiss : table s.hazardCount = none) :
    (∀ r : Insights, analyze table s ≠ .ok r) ∧
      (zero_division_in_rates s.boardSize s.revealedCount = false →
        analyze table s = .error .missingSampleData) := by
  constructor
  · intro r hc
    obtain ⟨pts, htab, -⟩ := analyze_ok_fields table s r hc
    rw [hmiss] at htab
    exact Option.noConfusion htab
  · intro hz
    simp [analyze, analyzeCounted, predict_multiplier, hz, hmiss]

theorem C5_missing_sample_data_is_error_witness :
    ((fun _ => none : PayoutTable) 3 = none ∧
      zero_division_in_rates 25 5 = false) ∧
      analyze (fun _ => none) ⟨25, 3, 5, 1⟩ = .error .missingSampleData := by
  refine ⟨⟨rfl, by decide⟩, ?_⟩
  exact (C5_missing_sample_data_is_error (fun _ => none) ⟨25, 3, 5, 1⟩ rfl).2 (by decide)

/-! ## Claim C8 -/

/-- **C8.** For every completed analysis, the multiplier is the interpolant
evaluated at the covered-cell count `boardSize - revealedCount`
(`covered_spaces = amount_of_squares - uncovered_spaces` in the code), not
at `revealedCount` itself; on the demo table the two query conventions give
different values, so the distinction is observable. -/
theorem C8_multiplier_queried_at_covered_spaces (table : PayoutTable) (s : Scenario)
    (pts : List (ℚ × ℚ)) (r : Insights)
    (htab : table s.hazardCount = some pts) (h : analyze table s = .ok r) :
    r.multiplier = interp1d pts ((s.boardSize - s.revealedCount : ℤ) : ℚ) ∧
      interp1d [(1, 6/5), (5, 5/2), (10, 8)] (25 - 20 : ℚ) ≠
        interp1d [(1, 6/5), (5, 5/2), (10, 8)] (20 : ℚ) := by
  constructor
  · obtain ⟨pts', htab', -, -, -, -, -, hm, -⟩ := analyze_ok_fields table s r h
    rw [htab] at htab'
    rw [hm, Option.some.inj htab']
  · rw [show (25 - 20 : ℚ) = 5 by norm_num, eval_interp_demo_5, eval_interp_demo_20]
    norm_num

theorem C8_multiplier_queried_at_covered_spaces_witness :
    (demoTable 5 = some [(1, 6/5), (5, 5/2), (10, 8)] ∧
      analyze demoTable ⟨25, 5, 20, 1⟩ =
        .ok ⟨10/5313, 531290/5313, 5/2, -21251/21252⟩) ∧
      ((5/2 : ℚ) = interp1d [(1, 6/5), (5, 5/2), (10, 8)] (((25 - 20 : ℤ)) : ℚ) ∧
        interp1d [(1, 6/5), (5, 5/2), (10, 8)] (25 - 20 : ℚ) ≠
          interp1d [(1, 6/5), (5, 5/2), (10, 8)] (20 : ℚ)) := by
  refine ⟨⟨by norm_num [demoTable], demo_analyze_25_5_20_1⟩, ?_⟩
  have h := C8_multiplier_queried_at_covered_spaces demoTable ⟨25, 5, 20, 1⟩
    [(1, 6/5), (5, 5/2), (10, 8)] ⟨10/5313, 531290/5313, 5/2, -21251/21252⟩
    (by norm_num [demoTable]) demo_analyze_25_5_20_1
  simpa using h

/-! ## Claim C9 -/

theorem analyzeCounted_loads (table : PayoutTable) (s : Scenario) (loads : ℕ)
    (hz : zero_division_in_rates s.boardSize s.revealedCount = false) :
    (analyzeCounted table s loads).1 = loads + 1 := by
  simp only [analyzeCounted, predict_multiplier, hz]
  cases table s.hazardCount with
  | none => simp
  | some pts =>
    by_cases hlen : pts.length < 2
    · simp [hlen]
    · by_cases hb : s.betAmount = 0 <;> simp [hlen, hb]

/-- **C9 counterexample.** The claim says the decrypt-and-parse load is
performed at most once per process and cached, so repeated analyses never
trigger a second load; running the same analysis twice triggers two loads,
because `predict_multiplier` re-invokes `load_sample_data_packet` (and its
`crp.read_encrypted`) on every call. -/
theorem C9_counterexample_reload_on_every_analysis :
    runAnalyses demoTable [⟨25, 5, 3, 1⟩, ⟨25, 5, 3, 1⟩] 0 = 2 ∧
      ¬runAnalyses demoTable [⟨25, 5, 3, 1⟩, ⟨25, 5, 3, 1⟩] 0 ≤ 1 := by
  have h1 := analyzeCounted_loads demoTable ⟨25, 5, 3, 1⟩ 0 (by decide)
  have heq : runAnalyses demoTable [⟨25, 5, 3, 1⟩, ⟨25, 5, 3, 1⟩] 0 = 2 := by
    simp only [runAnalyses, List.foldl_cons, List.foldl_nil, h1]
    exact analyzeCounted_loads demoTable ⟨25, 5, 3, 1⟩ (0 + 1) (by decide)
  exact ⟨heq, by omega⟩

/-- **C9 (amended).** The sample table is decrypted and re-parsed on every
analysis, not cached: each analysis whose probability step completes
performs exactly one load, so `k` repeated analyses trigger exactly `k`
loads. -/
theorem C9_load_performed_once_per_analysis (table : PayoutTable) (s : Scenario) (k : ℕ)
    (hz : zero_division_in_rates s.boardSize s.revealedCount = false) :
    runAnalyses table (List.replicate k s) 0 = k := by
  have key : ∀ (n : ℕ) (a : ℕ), runAnalyses table (List.replicate n s) a = a + n := by
    intro n
    induction n with
    | zero => intro a; simp [runAnalyses]
    | succ n ih =>
      intro a
      have ih' := ih (a + 1)
      rw [runAnalyses] at ih' ⊢
      rw [List.replicate_succ, List.foldl_cons, analyzeCounted_loads table s a hz, ih']
      omega
  simpa using key k 0

theorem C9_load_performed_once_per_analysis_witness :
    zero_division_in_rates 25 3 = false ∧
      runAnalyses demoTable (List.replicate 2 ⟨25, 5, 3, 1⟩) 0 = 2 := by
  refine ⟨by decide, ?_⟩
  exact C9_load_performed_once_per_analysis demoTable ⟨25, 5, 3, 1⟩ 2 (by decide)

/-! ## Claim C10 -/

/-- **C10.** For every pair of analyses agreeing on board size, hazard count
and revealed count — but with any bet amounts and any payout tables — the
computed success and failure rates are identical: the probability
calculation depends on neither the bet amount nor the table. -/
theorem C10_rates_independent_of_bet_and_table (t₁ t₂ : PayoutTable)
    (s₁ s₂ : Scenario) (r₁ r₂ : Insights)
    (hN : s₁.boardSize = s₂.boardSize) (hM : s₁.hazardCount = s₂.hazardCount)
    (hK : s₁.revealedCount = s₂.revealedCount)
    (h₁ : analyze t₁ s₁ = .ok r₁) (h₂ : analyze t₂ s₂ = .ok r₂) :
    r₁.successRate = r₂.successRate ∧ r₁.failureRate = r₂.failureRate := by
  obtain ⟨-, -, -, -, -, hsr₁, hfr₁, -, -⟩ := analyze_ok_fields t₁ s₁ r₁ h₁
  obtain ⟨-, -, -, -, -, hsr₂, hfr₂, -, -⟩ := analyze_ok_fields t₂ s₂ r₂ h₂
  have hsr : r₁.successRate = r₂.successRate := by rw [hsr₁, hsr₂, hN, hM, hK]
  exact ⟨hsr, by rw [hfr₁, hfr₂, hsr]⟩

theorem C10_rates_independent_of_bet_and_table_witness :
    (analyze demoTable ⟨25, 5, 20, 1⟩ =
        .ok ⟨10/5313, 531290/5313, 5/2, -21251/21252⟩ ∧
      analyze demoTable ⟨25, 5, 20, 2⟩ =
        .ok ⟨10/5313, 531290/5313, 5/2, -42503/42504⟩) ∧
      ((10/5313 : ℚ) = 10/5313 ∧ (531290/5313 : ℚ) = 531290/5313) := by
  refine ⟨⟨demo_analyze_25_5_20_1, demo_analyze_25_5_20_2⟩, ?_⟩
  have h := C10_rates_independent_of_bet_and_table demoTable demoTable
    ⟨25, 5, 20, 1⟩ ⟨25, 5, 20, 2⟩
    ⟨10/5313, 531290/5313, 5/2, -21251/21252⟩
    ⟨10/5313, 531290/5313, 5/2, -42503/42504⟩
    rfl rfl rfl demo_analyze_25_5_20_1 demo_analyze_25_5_20_2
  simpa using h

end ExplosiveChoices
